import Mathlib

set_option maxRecDepth 40000

/-
Verification of the pandoc reader generator script
(src/pandoc/lib/reader_generator.py).

The script holds a fixed list of format names, a Lua source template
containing the marker substring "<format>", and a loop that, for each
format name, writes the template with every marker occurrence replaced
by the name to the file ../readers/<name>.lua.

The development embeds the script shallowly: Python str.replace is
modelled character-list-wise with a structural fuel argument (so that
the kernel can evaluate it), and the filesystem is a map from path
strings to optional file contents.
-/

/-- One step supply of fuel per character of the scanned string.
Models Python str.replace(pat, rep) for a non-empty pattern: scan left to
right, replace each leftmost non-overlapping occurrence, continue after
the replaced segment.  The source only ever calls replace with the
literal pattern "<format>", which is non-empty; the emptiness guard is a
modelling artifact that makes the recursion well defined for all inputs. -/
def replaceFuel (p r : List Char) : Nat → List Char → List Char
  | 0, _ => []
  | _ + 1, [] => []
  | fuel + 1, c :: rest =>
    if p ≠ [] ∧ p.isPrefixOf (c :: rest) = true then
      r ++ replaceFuel p r fuel ((c :: rest).drop p.length)
    else
      c :: replaceFuel p r fuel rest

/-- Number of non-overlapping occurrences of `p` found by the same
left-to-right scan that `replaceFuel` performs (Python str.count). -/
def countOccFuel (p : List Char) : Nat → List Char → Nat
  | 0, _ => 0
  | _ + 1, [] => 0
  | fuel + 1, c :: rest =>
    if p ≠ [] ∧ p.isPrefixOf (c :: rest) = true then
      countOccFuel p fuel ((c :: rest).drop p.length) + 1
    else
      countOccFuel p fuel rest

/-- Python `s.replace(pat, rep)` on strings, via `replaceFuel` with fuel
equal to the length of `s`, which is always sufficient. -/
def strReplace (s pat rep : String) : String :=
  String.mk (replaceFuel pat.data rep.data s.data.length s.data)

/-- Python `s.count(pat)`: occurrences of `pat` in `s`. -/
def countOccS (pat s : String) : Nat :=
  countOccFuel pat.data s.data.length s.data

/-- The registry: the `formats` list of the source, in declaration order. -/
def formats : List String :=
  ["commonmark", "commonmark_x", "gfm",
   "markdown", "markdown_mmd", "markdown_phpextra", "markdown_strict",
   "latex",
   "org",
   "rst",
   "textile"]

/-- The template string of the source (the Python triple-quoted literal,
which starts directly with the first comment line and ends with a
newline after `end`). -/
def template : String :=
  "-- Copyright (c) 2023, Geoffrey M. Poore\n-- All rights reserved.\n--\n-- Licensed under the BSD 3-Clause License:\n-- http://opensource.org/licenses/BSD-3-Clause\n--\n\nlocal format = \x27<format>\x27\nlocal readerlib = dofile(pandoc.path.join\x7bpandoc.path.directory(PANDOC_SCRIPT_FILE), \x27../lib/readerlib.lua\x27\x7d)\n\nExtensions = readerlib.getExtensions(format)\n\nfunction Reader(sources, opts)\n    return readerlib.read(sources, format, opts)\nend\n"

/-- The placeholder token, the literal `<format>` of the source. -/
def placeholder : String := "<format>"

/-- The output path of one format, `f\x27../readers/\x7bformat\x7d.lua\x27`
in the source. -/
def outputPath (f : String) : String := "../readers/" ++ f ++ ".lua"

/-- The rendered content for one format:
`template.replace(\x27<format>\x27, format)` in the source. -/
def render (f : String) : String := strReplace template placeholder f

/-- The filesystem, as observed through the script: a map from path to
the content of the file at that path, `none` when no file exists there. -/
abbrev FS := String → Option String

/-- The filesystem with no files. -/
def emptyFS : FS := fun _ => none

/-- Writing content `c` to path `p`: the file at `p` is created or fully
overwritten, every other path is untouched. -/
def writeFile (p c : String) (fs : FS) : FS :=
  fun q => if q = p then some c else fs q

/-- Performing a list of writes in order. -/
def writeAll : List (String × String) → FS → FS
  | [], fs => fs
  | pc :: rest, fs => writeAll rest (writeFile pc.1 pc.2 fs)

/-- The generation loop of the source, generalized over the template
text: for each format in registry order, write the rendered template to
the format's output path. -/
def runT (tmpl : String) (fs : FS) : FS :=
  writeAll (formats.map fun f => (outputPath f, strReplace tmpl placeholder f)) fs

/-- A full run of the script: the loop with the fixed template. -/
def run (fs : FS) : FS := runT template fs

/-- The last write to a given path in a list of writes, if any. -/
def lookupLast : List (String × String) → String → Option String
  | [], _ => none
  | pc :: rest, q =>
    match lookupLast rest q with
    | some c => some c
    | none => if q = pc.1 then some pc.2 else none

/-- First argument if present, otherwise the second. -/
def fallback (a b : Option String) : Option String :=
  match a with
  | some c => some c
  | none => b

/-- A successful Boolean prefix test yields a decomposition of the
scanned list. -/
theorem isPrefixOf_exists_append :
    ∀ p s : List Char, p.isPrefixOf s = true → ∃ t, s = p ++ t := by
  intro p
  induction p with
  | nil => intro s _; exact ⟨s, rfl⟩
  | cons a as ih =>
    intro s hp
    cases s with
    | nil => simp [ List.isPrefixOf] at hp
    | cons b bs =>
      simp only [ List.isPrefixOf, Bool.and_eq_true, beq_iff_eq] at hp
      obtain ⟨t, ht⟩ := ih bs hp.2
      exact ⟨t, by simp [hp.1, ht]⟩

/-- A prefix is no longer than the list it opens. -/
theorem isPrefixOf_length_le (p s : List Char) (hp : p.isPrefixOf s = true) :
    p.length ≤ s.length := by
  obtain ⟨t, ht⟩ := isPrefixOf_exists_append p s hp
  subst ht
  simp

/-- Length bookkeeping of the scan: each replaced occurrence trades one
copy of the pattern length for one copy of the replacement length. -/
theorem replaceFuel_length (p r : List Char) :
    ∀ (fuel : Nat) (s : List Char), s.length ≤ fuel →
      (replaceFuel p r fuel s).length + countOccFuel p fuel s * p.length
        = s.length + countOccFuel p fuel s * r.length := by
  intro fuel
  induction fuel with
  | zero =>
    intro s hs
    have hz : s = [] := List.length_eq_zero.mp (Nat.le_zero.mp hs)
    subst hz
    simp [replaceFuel, countOccFuel]
  | succ n ih =>
    intro s hs
    match s with
    | [] => simp [replaceFuel, countOccFuel]
    | c :: rest =>
      by_cases h : p ≠ [] ∧ p.isPrefixOf (c :: rest) = true
      · have hplen : 1 ≤ p.length := by
          have : p.length ≠ 0 := fun hz => h.1 (List.length_eq_zero.mp hz)
          omega
        have hple : p.length ≤ (c :: rest).length :=
          isPrefixOf_length_le p (c :: rest) h.2
        have hdrop : ((c :: rest).drop p.length).length
            = (c :: rest).length - p.length := List.length_drop _ _
        have hub : ((c :: rest).drop p.length).length ≤ n := by
          simp only [ List.length_cons] at hdrop hple hs ⊢
          omega
        have hIH := ih ((c :: rest).drop p.length) hub
        simp only [replaceFuel, countOccFuel, if_pos h, List.length_append,
          List.length_cons]
        have e1 : (countOccFuel p n ((c :: rest).drop p.length) + 1) * p.length
            = countOccFuel p n ((c :: rest).drop p.length) * p.length + p.length := by
          ring
        have e2 : (countOccFuel p n ((c :: rest).drop p.length) + 1) * r.length
            = countOccFuel p n ((c :: rest).drop p.length) * r.length + r.length := by
          ring
        rw [e1, e2]
        generalize countOccFuel p n ((c :: rest).drop p.length) * p.length = A at hIH ⊢
        generalize countOccFuel p n ((c :: rest).drop p.length) * r.length = B at hIH ⊢
        simp only [ List.length_cons] at hdrop hple
        omega
      · have hub : rest.length ≤ n := by
          simp only [ List.length_cons] at hs
          omega
        have hIH := ih rest hub
        simp only [replaceFuel, countOccFuel, if_neg h, List.length_cons]
        generalize countOccFuel p n rest * p.length = A at hIH ⊢
        generalize countOccFuel p n rest * r.length = B at hIH ⊢
        omega

/-- When the scan finds no occurrence, replacement is the identity. -/
theorem replaceFuel_of_countOcc_zero (p r : List Char) :
    ∀ (fuel : Nat) (s : List Char), s.length ≤ fuel →
      countOccFuel p fuel s = 0 → replaceFuel p r fuel s = s := by
  intro fuel
  induction fuel with
  | zero =>
    intro s hs _
    have hz : s = [] := List.length_eq_zero.mp (Nat.le_zero.mp hs)
    subst hz
    rfl
  | succ n ih =>
    intro s hs hc
    match s with
    | [] => rfl
    | c :: rest =>
      by_cases h : p ≠ [] ∧ p.isPrefixOf (c :: rest) = true
      · simp only [countOccFuel, if_pos h] at hc
        omega
      · simp only [countOccFuel, if_neg h] at hc
        have hub : rest.length ≤ n := by
          simp only [ List.length_cons] at hs
          omega
        simp only [replaceFuel, if_neg h]
        rw [ih rest hub hc]

/-- The chunks of the scanned list between the occurrences that the
replace scan finds, computed from the pattern and the scanned list only
(the replacement text plays no part). -/
def splitFuel (p : List Char) : Nat → List Char → List (List Char)
  | 0, _ => [[]]
  | _ + 1, [] => [[]]
  | fuel + 1, c :: rest =>
    if p ≠ [] ∧ p.isPrefixOf (c :: rest) = true then
      [] :: splitFuel p fuel ((c :: rest).drop p.length)
    else
      match splitFuel p fuel rest with
      | [] => [[c]]
      | chunk :: more => (c :: chunk) :: more

/-- Joining chunks with a separator spliced verbatim between them. -/
def interc (r : List Char) : List (List Char) → List Char
  | [] => []
  | [a] => a
  | a :: more => a ++ r ++ interc r more

/-- The chunk decomposition is never empty. -/
theorem splitFuel_ne_nil (p : List Char) :
    ∀ (fuel : Nat) (s : List Char), splitFuel p fuel s ≠ [] := by
  intro fuel
  induction fuel with
  | zero => intro s; simp [splitFuel]
  | succ n ih =>
    intro s
    match s with
    | [] => simp [splitFuel]
    | c :: rest =>
      by_cases h : p ≠ [] ∧ p.isPrefixOf (c :: rest) = true
      · simp only [splitFuel]
        rw [if_pos h]
        simp
      · simp only [splitFuel]
        rw [if_neg h]
        cases hsf : splitFuel p n rest with
        | nil => simp
        | cons chunk more => simp

/-- Joining after extending the first chunk by one character. -/
theorem interc_cons_head (r : List Char) (c : Char) (chunk : List Char)
    (more : List (List Char)) :
    interc r ((c :: chunk) :: more) = c :: interc r (chunk :: more) := by
  match more with
  | [] => rfl
  | b :: more2 => rfl

/-- The replace scan equals the chunk decomposition joined with the
replacement text: the replacement is spliced in verbatim, one copy per
found occurrence, and is never itself scanned. -/
theorem replaceFuel_eq_interc (p r : List Char) :
    ∀ (fuel : Nat) (s : List Char),
      replaceFuel p r fuel s = interc r (splitFuel p fuel s) := by
  intro fuel
  induction fuel with
  | zero => intro s; rfl
  | succ n ih =>
    intro s
    match s with
    | [] => rfl
    | c :: rest =>
      by_cases h : p ≠ [] ∧ p.isPrefixOf (c :: rest) = true
      · simp only [replaceFuel, splitFuel]
        rw [if_pos h, if_pos h, ih]
        cases hsf : splitFuel p n ((c :: rest).drop p.length) with
        | nil => exact absurd hsf (splitFuel_ne_nil p n _)
        | cons chunk more => rfl
      · simp only [replaceFuel, splitFuel]
        rw [if_neg h, if_neg h, ih]
        cases hsf : splitFuel p n rest with
        | nil => exact absurd hsf (splitFuel_ne_nil p n rest)
        | cons chunk more => rw [interc_cons_head]

/-- Applying a list of writes: the observed content at a path is the
last write to that path, or the prior content when no write targets it. -/
theorem writeAll_apply :
    ∀ (ps : List (String × String)) (fs : FS) (q : String),
      writeAll ps fs q = fallback (lookupLast ps q) (fs q) := by
  intro ps
  induction ps with
  | nil => intro fs q; rfl
  | cons pc rest ih =>
    intro fs q
    simp only [writeAll, lookupLast]
    rw [ih]
    cases hl : lookupLast rest q with
    | some c => rfl
    | none =>
      simp only [fallback, writeFile]
      by_cases hq : q = pc.1
      · simp [hq]
      · simp [hq]

/-- A path no write targets keeps no record in `lookupLast`. -/
theorem lookupLast_eq_none :
    ∀ (ps : List (String × String)) (q : String),
      q ∉ ps.map Prod.fst → lookupLast ps q = none := by
  intro ps
  induction ps with
  | nil => intro q _; rfl
  | cons pc rest ih =>
    intro q hq
    simp only [ List.map_cons, List.mem_cons] at hq
    push_neg at hq
    simp only [lookupLast, ih q hq.2, if_neg hq.1]

/-- With pairwise distinct target paths, the last write to a listed path
is the listed content. -/
theorem lookupLast_of_nodup :
    ∀ (ps : List (String × String)) (q c : String),
      (ps.map Prod.fst).Nodup → (q, c) ∈ ps → lookupLast ps q = some c := by
  intro ps
  induction ps with
  | nil => intro q c _ hm; simp at hm
  | cons pc rest ih =>
    intro q c hnd hm
    simp only [ List.map_cons, List.nodup_cons] at hnd
    simp only [lookupLast]
    rcases List.mem_cons.mp hm with heq | hmem
    · have hq1 : q = pc.1 := by rw [← heq]
      have hqn : q ∉ rest.map Prod.fst := by rw [hq1]; exact hnd.1
      rw [lookupLast_eq_none rest q hqn, if_pos hq1, ← heq]
    · rw [ih q c hnd.2 hmem]

/-- The paths the loop writes to are pairwise distinct. -/
theorem outputPaths_nodup : (formats.map outputPath).Nodup := by decide

/-- After the loop with template text `tmpl`, the file at the output
path of a registered format holds that format's rendered text. -/
theorem runT_apply_outputPath (tmpl : String) (fs : FS) (f : String)
    (hf : f ∈ formats) :
    runT tmpl fs (outputPath f) = some (strReplace tmpl placeholder f) := by
  have hkeys : ((formats.map fun g => (outputPath g, strReplace tmpl placeholder g)).map
      Prod.fst) = formats.map outputPath := by
    simp [ List.map_map]
  have hmem : (outputPath f, strReplace tmpl placeholder f)
      ∈ formats.map fun g => (outputPath g, strReplace tmpl placeholder g) :=
    List.mem_map_of_mem _ hf
  have hnd : ((formats.map fun g => (outputPath g, strReplace tmpl placeholder g)).map
      Prod.fst).Nodup := by
    rw [hkeys]; exact outputPaths_nodup
  rw [runT, writeAll_apply, lookupLast_of_nodup _ _ _ hnd hmem]
  rfl

/-- A path outside the output paths is untouched by the loop. -/
theorem runT_apply_other (tmpl : String) (fs : FS) (q : String)
    (hq : ∀ f ∈ formats, q ≠ outputPath f) :
    runT tmpl fs q = fs q := by
  have hnotin : q ∉ (formats.map fun g =>
      (outputPath g, strReplace tmpl placeholder g)).map Prod.fst := by
    simp only [ List.map_map, List.mem_map, Function.comp]
    rintro ⟨f, hf, hfe⟩
    exact hq f hf hfe.symm
  rw [runT, writeAll_apply, lookupLast_eq_none _ _ hnotin]
  rfl

/-- The generation loop with fallible writes.  The source wraps no write
in any error handling: a raised I/O error escapes the `for` loop and
aborts the script.  `fail` tells which target paths raise; the first
raising write stops the loop, and the error value carries the failing
format together with the filesystem as it stands at the abort, so files
written before the failure persist and formats after it are never
attempted. -/
def runExc (fail : String → Bool) : List String → FS → Except (String × FS) FS
  | [], fs => Except.ok fs
  | f :: rest, fs =>
    if fail (outputPath f) then Except.error (f, fs)
    else runExc fail rest (writeFile (outputPath f) (render f) fs)

/-- A write oracle under which the very first registered format's write
raises. -/
def failFirst : String → Bool := fun q => q == outputPath "commonmark"

/-- A write oracle under which only the second registered format's write
raises. -/
def failSecond : String → Bool := fun q => q == outputPath "commonmark_x"

/-- The filesystem states a concurrent reader can observe while
`pathlib.Path.write_text` runs: `write_text` opens the target with mode
`w`, which truncates the file in place to empty, and then writes the
content; there is no temporary file and no rename.  The three states
are: before the call, after the truncating open, after the write. -/
def writeTextStates (p c : String) (fs : FS) : List FS :=
  [fs, writeFile p "" fs, writeFile p c fs]

/-- The diagnostics of a run.  The source script contains no print,
logging, warning or reporting statement of any kind; its only observable
effect is the file writes, so the diagnostic report of a run is empty
whatever the template text. -/
def runWarnings (_tmpl : String) : List String := []

/-- A character acceptable in an output filename: not a path separator
and not whitespace. -/
def validNameChar (c : Char) : Bool :=
  !(c == '/') && !(c == '\\') && !c.isWhitespace

/-- Claim C1: after a run, for every format identifier in the registry,
the file at the deterministic path derived from the identifier exists
and its content equals the template with every occurrence of the
placeholder token replaced by the identifier string. -/
theorem generated_file_contents (fs : FS) (f : String) (hf : f ∈ formats) :
    run fs (outputPath f) = some (strReplace template placeholder f) :=
  runT_apply_outputPath template fs f hf

/-- Witness for C1, at the registered format `org` over the empty
filesystem. -/
theorem generated_file_contents_witness :
    "org" ∈ formats ∧
    run emptyFS (outputPath "org") = some (strReplace template placeholder "org") :=
  ⟨by decide, generated_file_contents emptyFS "org" (by decide)⟩

/-- Counterexample to C2 as stated: when the very first format's write
raises, the loop stops at once with the error; the resulting filesystem
is untouched, so in particular the remaining registered format `gfm`
was never attempted, no other file was written, and no failures were
aggregated. -/
theorem loop_abort_counterexample :
    runExc failFirst formats emptyFS = Except.error ("commonmark", emptyFS) ∧
    emptyFS (outputPath "gfm") = none ∧ "gfm" ∈ formats :=
  ⟨rfl, rfl, by decide⟩

/-- Claim C2 (amended): if one format's write raises an I/O error, the
loop aborts at that format — formats earlier in the registry keep their
correctly written files, formats after the failing one are never
attempted, no failures are aggregated, and the run fails (the exception
escapes, so the process exits non-zero). -/
theorem loop_aborts_on_first_failure (fail : String → Bool) (pre post : List String)
    (f : String) (fs : FS)
    (hpre : ∀ g ∈ pre, fail (outputPath g) = false)
    (hf : fail (outputPath f) = true) :
    runExc fail (pre ++ f :: post) fs =
      Except.error (f, writeAll (pre.map fun g => (outputPath g, render g)) fs) := by
  revert hpre
  induction pre generalizing fs with
  | nil =>
    intro _
    simp only [ List.nil_append, runExc, hf, List.map_nil, writeAll]
    simp
  | cons g pre ih =>
    intro hpre
    have hg : fail (outputPath g) = false := hpre g (List.mem_cons_self g pre)
    simp only [ List.cons_append, runExc, hg, List.map_cons, writeAll]
    exact ih (writeFile (outputPath g) (render g) fs)
      (fun x hx => hpre x (List.mem_cons_of_mem g hx))

/-- Witness for the amended C2: the second format's write raises; the
loop ends in the error state holding exactly the first format's file. -/
theorem loop_aborts_on_first_failure_witness :
    runExc failSecond
        (["commonmark"] ++ "commonmark_x" ::
          ["gfm", "markdown", "markdown_mmd", "markdown_phpextra", "markdown_strict",
           "latex", "org", "rst", "textile"]) emptyFS =
      Except.error ("commonmark_x",
        writeAll (["commonmark"].map fun g => (outputPath g, render g)) emptyFS) :=
  loop_aborts_on_first_failure failSecond ["commonmark"]
    ["gfm", "markdown", "markdown_mmd", "markdown_phpextra", "markdown_strict",
     "latex", "org", "rst", "textile"] "commonmark_x" emptyFS
    (by decide) (by decide)

/-- Counterexample to C3 as stated: the write of a file is an in-place
truncate-then-write, so while `gfm` is being written a concurrent
reader can observe the state after the truncating open, in which the
file exists, is empty, and differs from the fully rendered content as
well as from the prior state (absent). -/
theorem nonatomic_write_counterexample :
    writeFile (outputPath "gfm") "" emptyFS ∈
      writeTextStates (outputPath "gfm") (render "gfm") emptyFS ∧
    writeFile (outputPath "gfm") "" emptyFS (outputPath "gfm") = some "" ∧
    some "" ≠ some (render "gfm") ∧
    writeFile (outputPath "gfm") "" emptyFS (outputPath "gfm") ≠
      emptyFS (outputPath "gfm") :=
  ⟨List.mem_cons_of_mem _ (List.mem_cons_self _ _), by decide, by decide, by decide⟩

/-- Claim C3 (amended): each file write is a plain in-place
truncate-then-write with no temporary file and no rename; the write
does end with the file holding the fully rendered content, but in
between a concurrent reader can observe an intermediate state in which
the file is present yet holds neither the prior nor the final
content. -/
theorem write_text_in_place (p c : String) (fs : FS)
    (hc : c ≠ "") (hold : fs p ≠ some "") :
    (writeTextStates p c fs).getLast? = some (writeFile p c fs) ∧
    writeFile p c fs p = some c ∧
    ∃ st ∈ writeTextStates p c fs, st p = some "" ∧ st p ≠ fs p ∧ st p ≠ some c := by
  refine ⟨rfl, by simp [writeFile], ?_⟩
  refine ⟨writeFile p "" fs, ?_, ?_, ?_, ?_⟩
  · exact List.mem_cons_of_mem _ (List.mem_cons_self _ _)
  · simp [writeFile]
  · simp only [writeFile, if_pos rfl]
    exact fun h => hold h.symm
  · simp only [writeFile, if_pos rfl]
    exact fun h => hc (Option.some.inj h).symm

/-- Witness for the amended C3, at the output file of `textile` over
the empty filesystem. -/
theorem write_text_in_place_witness :
    render "textile" ≠ "" ∧ emptyFS (outputPath "textile") ≠ some "" ∧
    ((writeTextStates (outputPath "textile") (render "textile") emptyFS).getLast?
        = some (writeFile (outputPath "textile") (render "textile") emptyFS) ∧
      writeFile (outputPath "textile") (render "textile") emptyFS (outputPath "textile")
        = some (render "textile") ∧
      ∃ st ∈ writeTextStates (outputPath "textile") (render "textile") emptyFS,
        st (outputPath "textile") = some "" ∧
        st (outputPath "textile") ≠ emptyFS (outputPath "textile") ∧
        st (outputPath "textile") ≠ some (render "textile")) :=
  ⟨by decide, by decide,
    write_text_in_place (outputPath "textile") (render "textile") emptyFS
      (by decide) (by decide)⟩

/-- Counterexample to C4 as stated: with a template that holds zero
occurrences of the placeholder the run succeeds and every output file
is the raw template text, but nothing is flagged — the diagnostic
report of a run is empty, because the script has no reporting code. -/
theorem no_warning_counterexample :
    countOccS placeholder "no marker here" = 0 ∧
    runT "no marker here" emptyFS (outputPath "gfm") = some "no marker here" ∧
    runWarnings "no marker here" = [] :=
  ⟨by decide, by decide, rfl⟩

/-- Claim C4 (amended): if the template contains zero occurrences of
the placeholder token, the run does not fail and every output file is
byte-identical to the raw template; no warning is emitted, since the
script produces no run report at all. -/
theorem missing_placeholder_copies_template (tmpl f : String) (fs : FS)
    (h : countOccS placeholder tmpl = 0) (hf : f ∈ formats) :
    runT tmpl fs (outputPath f) = some tmpl ∧ runWarnings tmpl = [] := by
  refine ⟨?_, rfl⟩
  rw [runT_apply_outputPath tmpl fs f hf]
  have hrep : strReplace tmpl placeholder f = tmpl := by
    unfold strReplace
    rw [replaceFuel_of_countOcc_zero placeholder.data f.data tmpl.data.length
      tmpl.data (le_refl _) h]
  rw [hrep]

/-- Witness for the amended C4, with a placeholder-free template and
the registered format `rst`. -/
theorem missing_placeholder_copies_template_witness :
    countOccS placeholder "plain text" = 0 ∧ "rst" ∈ formats ∧
    (runT "plain text" emptyFS (outputPath "rst") = some "plain text" ∧
      runWarnings "plain text" = []) :=
  ⟨by decide, by decide,
    missing_placeholder_copies_template "plain text" "rst" emptyFS
      (by decide) (by decide)⟩

/-- Claim C5: for every template text and format identifier, the length
of the rendered string equals the template length plus the number of
placeholder occurrences times the difference between the identifier
length and the placeholder length. -/
theorem rendered_length (tmpl fmt : String) :
    ((strReplace tmpl placeholder fmt).length : ℤ) =
      (tmpl.length : ℤ) + (countOccS placeholder tmpl : ℤ) *
        ((fmt.length : ℤ) - (placeholder.length : ℤ)) := by
  have h := replaceFuel_length placeholder.data fmt.data tmpl.data.length
    tmpl.data (le_refl _)
  show ((replaceFuel placeholder.data fmt.data tmpl.data.length tmpl.data).length : ℤ)
      = (tmpl.data.length : ℤ)
        + (countOccFuel placeholder.data tmpl.data.length tmpl.data : ℤ)
          * ((fmt.data.length : ℤ) - (placeholder.data.length : ℤ))
  generalize hA : (replaceFuel placeholder.data fmt.data tmpl.data.length
    tmpl.data).length = A at h ⊢
  generalize hN : countOccFuel placeholder.data tmpl.data.length tmpl.data = N at h ⊢
  have h2 : (A : ℤ) + N * placeholder.data.length
      = tmpl.data.length + N * fmt.data.length := by exact_mod_cast h
  have e : (N : ℤ) * ((fmt.data.length : ℤ) - (placeholder.data.length : ℤ))
      = N * fmt.data.length - N * placeholder.data.length := by ring
  rw [e]
  linarith

/-- Repeating the same list of writes changes nothing: at every path
the last write wins, and it is the same write both times. -/
theorem writeAll_idem (ps : List (String × String)) (fs : FS) (q : String) :
    writeAll ps (writeAll ps fs) q = writeAll ps fs q := by
  simp only [writeAll_apply]
  cases lookupLast ps q with
  | some c => rfl
  | none => rfl

/-- Claim C6: a run is idempotent — running the generator twice yields
the same filesystem as running it once; the second run fully overwrites
each file with identical content. -/
theorem run_idempotent (fs : FS) : run (run fs) = run fs := by
  funext q
  exact writeAll_idem (formats.map fun f =>
    (outputPath f, strReplace template placeholder f)) fs q

/-- Claim C7: one emitter call creates or fully overwrites exactly the
file at its identifier's path and touches no other path; rendering is a
pure function of the template and identifier (the shared template value
is never mutated, each call returning a fresh string). -/
theorem emitter_touches_one_file (f q : String) (fs : FS) (hq : q ≠ outputPath f) :
    writeFile (outputPath f) (render f) fs (outputPath f) = some (render f) ∧
    writeFile (outputPath f) (render f) fs q = fs q := by
  constructor
  · simp [writeFile]
  · simp [writeFile, hq]

/-- Witness for C7, at the registered format `latex` and an unrelated
path. -/
theorem emitter_touches_one_file_witness :
    "../readers/zzz.lua" ≠ outputPath "latex" ∧
    (writeFile (outputPath "latex") (render "latex") emptyFS (outputPath "latex")
        = some (render "latex") ∧
      writeFile (outputPath "latex") (render "latex") emptyFS "../readers/zzz.lua"
        = emptyFS "../readers/zzz.lua") :=
  ⟨by decide, emitter_touches_one_file "latex" "../readers/zzz.lua" emptyFS (by decide)⟩

/-- Claim C8: every format identifier in the registry is non-empty,
unique within the registry, and contains no path separator and no
whitespace; distinct registered identifiers map to distinct output
paths. -/
theorem registry_invariants :
    formats.all (fun f => !f.isEmpty && f.data.all validNameChar) = true ∧
    formats.Nodup ∧ (formats.map outputPath).Nodup :=
  ⟨by decide, by decide, by decide⟩

/-- Claim C9: substitution is single-pass and does not recurse — the
rendered result is the chunk decomposition of the template (computed
from the template and the placeholder alone) joined with verbatim
copies of the identifier text, so placeholder occurrences inside the
substituted identifier are never themselves re-substituted; concretely,
an identifier containing the placeholder survives in the output with
its embedded placeholder intact. -/
theorem single_pass_substitution (rep tmpl : String) :
    (strReplace tmpl placeholder rep).data
        = interc rep.data (splitFuel placeholder.data tmpl.data.length tmpl.data) ∧
    strReplace "local format = \x27<format>\x27" placeholder "x<format>y"
        = "local format = \x27x<format>y\x27" :=
  ⟨replaceFuel_eq_interc placeholder.data rep.data tmpl.data.length tmpl.data,
    by decide⟩

/-- Claim C10: the generator is deterministic — the registry has
exactly 11 entries, the placeholder is the literal `<format>`, the
output path of an identifier is `../readers/<identifier>.lua`, and two
runs started from any two filesystem states produce identical content
at every registered output path. -/
theorem deterministic_output (fs1 fs2 : FS) (f : String) (hf : f ∈ formats) :
    formats.length = 11 ∧ placeholder = "<format>" ∧
    outputPath f = "../readers/" ++ f ++ ".lua" ∧
    run fs1 (outputPath f) = run fs2 (outputPath f) := by
  refine ⟨by decide, rfl, rfl, ?_⟩
  show runT template fs1 (outputPath f) = runT template fs2 (outputPath f)
  rw [runT_apply_outputPath template fs1 f hf, runT_apply_outputPath template fs2 f hf]

/-- Witness for C10, comparing a run over the empty filesystem with a
run over a filesystem holding stale content everywhere, at the
registered format `markdown`. -/
theorem deterministic_output_witness :
    "markdown" ∈ formats ∧
    (formats.length = 11 ∧ placeholder = "<format>" ∧
      outputPath "markdown" = "../readers/" ++ "markdown" ++ ".lua" ∧
      run emptyFS (outputPath "markdown")
        = run (fun _ => some "stale") (outputPath "markdown")) :=
  ⟨by decide, deterministic_output emptyFS (fun _ => some "stale") "markdown" (by decide)⟩
